import Mathlib

/-!
Verification of Headless Sentinel against its specification.

This file gives a shallow embedding of the parts of the program that the
specification's claims speak about, translated from the Python source:

* `database.py` — `DatabaseManager.insert_logs` / `delete_old_logs`,
  modelled as pure state transformers over an explicit table state;
* `utils.py` — `sanitize_xml`, `retry_on_failure`;
* `analyzer.py` — `LogAnalyzer._parse_time_range`, `Watcher._check_alerts`
  and `Watcher._evaluate_rule`;
* `config_manager.py` — `ConfigManager.get_credentials`;
* `collector.py` — `LogCollector._parse_event_xml`,
  `RemoteHost.execute_powershell`.

Machine-level concerns that do not affect the claims (SQL wire format,
thread-local connections, logging) are abstracted; timestamps handled by
SQL comparisons are modelled as integers, while the XML parser's timestamp
handling is modelled down to the ISO-8601 string level.
-/

namespace Sentinel

/-! ## Store model (`database.py`)

The `logs` table is a list of rows in insertion order together with the
current value of the `logs_id_seq` sequence (`CREATE SEQUENCE … START 1`;
`seq` is the value the next `nextval` call returns).  Timestamps, which the
SQL layer only ever compares, are modelled as integers (e.g. epoch
seconds).  `insert_logs` also reports the list of SQL statements it issues,
so that the early-return path for an empty batch is observable. -/

/-- A `LogEntry` as handed to the store (`collector.LogEntry`), with the
timestamp abstracted to an ordered instant. -/
structure LogRec where
  ts : Int
  computer : String
  log_name : String
  event_id : Nat
  level : String
  source : String
  message : String
  deriving DecidableEq, Repr

/-- One row of the `logs` table: a `LogRec` plus the `id` drawn from
`logs_id_seq`. -/
structure Row where
  id : Nat
  entry : LogRec
  deriving DecidableEq, Repr

/-- The SQL statements `insert_logs` can issue, in order. -/
inductive SqlOp where
  | register
  | insertFromSelect
  | commit
  | unregister
  deriving DecidableEq, Repr

/-- State of one store: table rows in insertion order and the next value of
`logs_id_seq`. -/
structure DBState where
  rows : List Row
  seq : Nat
  deriving DecidableEq, Repr

/-- A freshly initialised store: empty table, sequence starting at 1. -/
def initState : DBState := ⟨[], 1⟩

/-- `nextval('logs_id_seq')` applied to each entry of the batch in order:
the SELECT feeding the INSERT evaluates `nextval` once per `temp_logs` row,
in `temp_logs` (= batch) order. -/
def assignIds (seq : Nat) : List LogRec → List Row
  | [] => []
  | e :: rest => ⟨seq, e⟩ :: assignIds (seq + 1) rest

/-- `DatabaseManager.insert_logs`: empty batches return before any SQL is
issued; otherwise the batch is appended with ids from the sequence. -/
def insert_logs (st : DBState) (entries : List LogRec) : DBState × List SqlOp :=
  if entries.isEmpty then
    (st, [])
  else
    (⟨st.rows ++ assignIds st.seq entries, st.seq + entries.length⟩,
     [.register, .insertFromSelect, .commit, .unregister])

/-- `MAX(id)` over the table; `0` for an empty table (SQL `NULL`, which the
sequence start of 1 keeps consistent with `max = seq - 1`). -/
def maxId (st : DBState) : Nat :=
  st.rows.foldr (fun r m => max r.id m) 0

/-- `DatabaseManager.delete_old_logs`:
`DELETE FROM logs WHERE timestamp < CURRENT_TIMESTAMP - INTERVAL '{days}' DAY`,
returning the affected count.  `now` is `CURRENT_TIMESTAMP`, and the
interval is `days * 86400` in the integer-instant model. -/
def delete_old_logs (st : DBState) (now days : Int) : DBState × Nat :=
  let cutoff := now - days * 86400
  let kept := st.rows.filter (fun r => !(r.entry.ts < cutoff))
  (⟨kept, st.seq⟩, st.rows.length - kept.length)

/-- States reachable from a fresh store by `insert_logs` calls ("a single
run" of inserts). -/
inductive Reachable : DBState → Prop where
  | init : Reachable initState
  | step (st : DBState) (B : List LogRec) :
      Reachable st → Reachable (insert_logs st B).1

/-! ### Store lemmas -/

theorem assignIds_length (seq : Nat) (l : List LogRec) :
    (assignIds seq l).length = l.length := by
  induction l generalizing seq with
  | nil => rfl
  | cons e rest ih => simp [assignIds, ih]

theorem assignIds_id_bounds (seq : Nat) (l : List LogRec) :
    ∀ r ∈ assignIds seq l, seq ≤ r.id ∧ r.id < seq + l.length := by
  induction l generalizing seq with
  | nil => intro r hr; simp [assignIds] at hr
  | cons e rest ih =>
    intro r hr
    simp only [assignIds, List.mem_cons] at hr
    simp only [List.length_cons]
    rcases hr with rfl | hr
    · simp
    · have := ih (seq + 1) r hr
      omega

theorem assignIds_pairwise (seq : Nat) (l : List LogRec) :
    (assignIds seq l).Pairwise (fun a b => a.id < b.id) := by
  induction l generalizing seq with
  | nil => exact List.Pairwise.nil
  | cons e rest ih =>
    refine List.Pairwise.cons ?_ (ih (seq + 1))
    intro r hr
    exact lt_of_lt_of_le (Nat.lt_succ_self seq) (assignIds_id_bounds (seq + 1) rest r hr).1

theorem maxId_eq_foldr (st : DBState) :
    maxId st = st.rows.foldr (fun r m => max r.id m) 0 := rfl

theorem foldr_max_append (l₁ l₂ : List Row) :
    (l₁ ++ l₂).foldr (fun r m => max r.id m) 0 =
      max (l₁.foldr (fun r m => max r.id m) 0) (l₂.foldr (fun r m => max r.id m) 0) := by
  induction l₁ with
  | nil => simp
  | cons a t ih => simp [ih, Nat.max_assoc]

theorem assignIds_foldr_max (seq : Nat) (l : List LogRec) (h : l ≠ []) :
    (assignIds seq l).foldr (fun r m => max r.id m) 0 = seq + l.length - 1 := by
  induction l generalizing seq with
  | nil => exact absurd rfl h
  | cons e rest ih =>
    by_cases hr : rest = []
    · subst hr; simp [assignIds]
    · have := ih (seq + 1) hr
      simp only [assignIds, List.foldr_cons, this, List.length_cons]
      have hlen : rest.length ≥ 1 := List.length_pos.mpr hr
      omega

theorem insert_logs_nil_eq (st : DBState) : insert_logs st [] = (st, []) := rfl

theorem insert_logs_cons_eq (st : DBState) (e : LogRec) (rest : List LogRec) :
    insert_logs st (e :: rest) =
      (⟨st.rows ++ assignIds st.seq (e :: rest), st.seq + (e :: rest).length⟩,
       [.register, .insertFromSelect, .commit, .unregister]) := rfl

/-- The store invariant maintained by runs of inserts: the sequence is at
least 1, `MAX(id)` is one behind the sequence, every id is below the
sequence, and ids are strictly increasing in insertion order. -/
def StoreInv (st : DBState) : Prop :=
  1 ≤ st.seq ∧ maxId st = st.seq - 1 ∧
    (∀ r ∈ st.rows, r.id < st.seq) ∧
    st.rows.Pairwise (fun a b => a.id < b.id)

theorem storeInv_init : StoreInv initState := by
  refine ⟨le_refl 1, rfl, ?_, List.Pairwise.nil⟩
  intro r hr; simp [initState] at hr

theorem storeInv_insert (st : DBState) (B : List LogRec) (h : StoreInv st) :
    StoreInv (insert_logs st B).1 := by
  obtain ⟨h1, hmax, hlt, hpw⟩ := h
  cases B with
  | nil => exact ⟨h1, hmax, hlt, hpw⟩
  | cons e rest =>
    have hBne : e :: rest ≠ [] := by simp
    rw [insert_logs_cons_eq]
    refine ⟨by simp only [List.length_cons]; omega, ?_, ?_, ?_⟩
    · show maxId ⟨st.rows ++ assignIds st.seq (e :: rest), st.seq + (e :: rest).length⟩
        = st.seq + (e :: rest).length - 1
      unfold maxId
      rw [foldr_max_append, assignIds_foldr_max st.seq (e :: rest) hBne]
      rw [← maxId_eq_foldr st, hmax]
      exact Nat.max_eq_right (by simp only [List.length_cons]; omega)
    · intro r hr
      rcases List.mem_append.mp hr with hr | hr
      · have := hlt r hr; simp only [List.length_cons]; omega
      · have := (assignIds_id_bounds st.seq (e :: rest) r hr).2
        exact this
    · rw [List.pairwise_append]
      refine ⟨hpw, assignIds_pairwise st.seq (e :: rest), ?_⟩
      intro a ha b hb
      have ha' := hlt a ha
      have hb' := (assignIds_id_bounds st.seq (e :: rest) b hb).1
      omega

theorem reachable_inv (st : DBState) (h : Reachable st) : StoreInv st := by
  induction h with
  | init => exact storeInv_init
  | step st B _ ih => exact storeInv_insert st B ih

/-! ## Claim theorems for the store -/

/-- C3: for every batch `B` inserted into a store reached by a run of
inserts, `insert_logs` adds exactly `|B|` rows, appends them in batch order
with consecutive ids from the sequence, raises `MAX(id)` by exactly `|B|`,
and keeps the id column strictly increasing (hence unique, never reused). -/
theorem insert_logs_batch_spec (st : DBState) (h : Reachable st) (B : List LogRec) :
    ((insert_logs st B).1.rows.length = st.rows.length + B.length) ∧
    (maxId (insert_logs st B).1 = maxId st + B.length) ∧
    ((insert_logs st B).1.rows.Pairwise (fun a b => a.id < b.id)) ∧
    (B ≠ [] → (insert_logs st B).1.rows = st.rows ++ assignIds st.seq B) := by
  obtain ⟨h1, hmax, hlt, hpw⟩ := reachable_inv st h
  have hinv' := storeInv_insert st B ⟨h1, hmax, hlt, hpw⟩
  obtain ⟨h1', hmax', _, hpw'⟩ := hinv'
  cases B with
  | nil =>
    rw [insert_logs_nil_eq]
    exact ⟨by simp, by simp, hpw, by intro hc; exact absurd rfl hc⟩
  | cons e rest =>
    have hseqlen : (insert_logs st (e :: rest)).1.seq = st.seq + (e :: rest).length := by
      rw [insert_logs_cons_eq]
    refine ⟨?_, ?_, hpw', fun _ => by rw [insert_logs_cons_eq]⟩
    · rw [insert_logs_cons_eq]
      simp [assignIds_length]
    · rw [hmax', hseqlen, hmax]
      simp only [List.length_cons]
      omega

/-- Witness for C3: inserting a concrete two-entry batch into the fresh
store. -/
theorem insert_logs_batch_spec_witness :
    ((insert_logs initState
        [⟨100, "h1", "Security", 4625, "Error", "s", "m"⟩,
         ⟨101, "h1", "Security", 4624, "Information", "s", "m"⟩]).1.rows.length
       = initState.rows.length + 2) ∧
    (maxId (insert_logs initState
        [⟨100, "h1", "Security", 4625, "Error", "s", "m"⟩,
         ⟨101, "h1", "Security", 4624, "Information", "s", "m"⟩]).1 = maxId initState + 2) := by
  have h := insert_logs_batch_spec initState Reachable.init
      [⟨100, "h1", "Security", 4625, "Error", "s", "m"⟩,
       ⟨101, "h1", "Security", 4624, "Information", "s", "m"⟩]
  exact ⟨h.1, h.2.1⟩

/-- C5: after `delete_old_logs(days)` at instant `now`, no row older than
`now - days` remains, every row with timestamp at least `now - days` is
kept unchanged (order and content), and the returned count is the number of
deleted rows. -/
theorem delete_old_logs_spec (st : DBState) (now days : Int) :
    (∀ r ∈ (delete_old_logs st now days).1.rows, ¬(r.entry.ts < now - days * 86400)) ∧
    (∀ r ∈ st.rows, now - days * 86400 ≤ r.entry.ts → r ∈ (delete_old_logs st now days).1.rows) ∧
    ((delete_old_logs st now days).1.rows.Sublist st.rows) ∧
    ((delete_old_logs st now days).2 =
      st.rows.length - (delete_old_logs st now days).1.rows.length) := by
  refine ⟨?_, ?_, ?_, rfl⟩
  · intro r hr
    simp only [delete_old_logs, List.mem_filter] at hr
    have := hr.2
    simp only [Bool.not_eq_true', decide_eq_false_iff_not] at this
    exact this
  · intro r hr hts
    simp only [delete_old_logs, List.mem_filter]
    refine ⟨hr, ?_⟩
    simp only [Bool.not_eq_true', decide_eq_false_iff_not]
    omega
  · exact List.filter_sublist st.rows

/-- Witness for C5: a concrete two-row store, `now = 100 * 86400`,
retention 1 day; the old row goes, the fresh row stays, count is 1. -/
theorem delete_old_logs_spec_witness :
    (∀ r ∈ (delete_old_logs
        ⟨[⟨1, ⟨0, "h", "Security", 1, "Error", "s", "m"⟩⟩,
          ⟨2, ⟨100 * 86400, "h", "Security", 1, "Error", "s", "m"⟩⟩], 3⟩
        (100 * 86400) 1).1.rows, ¬(r.entry.ts < 100 * 86400 - 1 * 86400)) ∧
    ((⟨2, ⟨100 * 86400, "h", "Security", 1, "Error", "s", "m"⟩⟩ : Row) ∈
      (delete_old_logs
        ⟨[⟨1, ⟨0, "h", "Security", 1, "Error", "s", "m"⟩⟩,
          ⟨2, ⟨100 * 86400, "h", "Security", 1, "Error", "s", "m"⟩⟩], 3⟩
        (100 * 86400) 1).1.rows) := by
  have h := delete_old_logs_spec
      ⟨[⟨1, ⟨0, "h", "Security", 1, "Error", "s", "m"⟩⟩,
        ⟨2, ⟨100 * 86400, "h", "Security", 1, "Error", "s", "m"⟩⟩], 3⟩
      (100 * 86400) 1
  refine ⟨h.1, ?_⟩
  refine h.2.1 _ ?_ (by norm_num)
  simp

/-- C10: inserting the empty batch is a no-op — the function returns
before issuing any SQL, the table and the id sequence are unchanged, and no
error is raised (the call is a total function returning normally). -/
theorem insert_logs_empty_noop (st : DBState) :
    insert_logs st [] = (st, []) := rfl

/-! ## XML sanitizer (`utils.sanitize_xml`)

`sanitize_xml` applies two substitutions in sequence:
`re.sub(r'[\x00-\x08\x0B\x0C\x0E-\x1F\x7F-\x9F]', '', s)` then
`re.sub(r'[^\x09\x0A\x0D\x20-퟿-�]', '', s)`.
Both are per-character deletions, so each is a character filter.  Lean's
`Char` ranges over Unicode scalar values, matching Python's `str`
(surrogates excluded, which neither regex would keep anyway). -/

/-- Membership in the first regex's character class
`[\x00-\x08\x0B\x0C\x0E-\x1F\x7F-\x9F]` (removed characters). -/
def inControlClass (c : Char) : Bool :=
  (c.val ≤ 0x08) || (c.val == 0x0B) || (c.val == 0x0C) ||
  (0x0E ≤ c.val && c.val ≤ 0x1F) || (0x7F ≤ c.val && c.val ≤ 0x9F)

/-- Membership in the second regex's positive class
`[\x09\x0A\x0D\x20-퟿-�]` (kept characters; the regex
removes the complement). -/
def inXmlClass (c : Char) : Bool :=
  (c.val == 0x09) || (c.val == 0x0A) || (c.val == 0x0D) ||
  (0x20 ≤ c.val && c.val ≤ 0xD7FF) || (0xE000 ≤ c.val && c.val ≤ 0xFFFD)

/-- `utils.sanitize_xml`: first substitution removes the control class,
second removes everything outside the XML class. -/
def sanitize_xml (s : String) : String :=
  let s1 : String := ⟨s.data.filter (fun c => !inControlClass c)⟩
  ⟨s1.data.filter (fun c => inXmlClass c)⟩

/-- The character set the specification says survives sanitization: the
listed control ranges are stripped, and only code points outside XML 1.0's
legal character set (`#x9 | #xA | #xD | [#x20-#xD7FF] | [#xE000-#xFFFD] |
[#x10000-#x10FFFF]`) are dropped.  Modelled from the spec's words, for
comparison with `sanitize_xml`. -/
def specKeep (c : Char) : Bool :=
  !inControlClass c &&
    ((c.val == 0x09) || (c.val == 0x0A) || (c.val == 0x0D) ||
     (0x20 ≤ c.val && c.val ≤ 0xD7FF) || (0xE000 ≤ c.val && c.val ≤ 0xFFFD) ||
     (0x10000 ≤ c.val && c.val ≤ 0x10FFFF))

/-- Sanitization as the specification describes it: keep exactly the
characters in `specKeep`. -/
def spec_sanitize (s : String) : String :=
  ⟨s.data.filter specKeep⟩

theorem sanitize_xml_data (s : String) :
    (sanitize_xml s).data =
      (s.data.filter (fun c => !inControlClass c)).filter (fun c => inXmlClass c) := rfl

/-- The code point U+10000 (LINEAR B SYLLABLE B008 A): the first
supplementary-plane character, legal in XML 1.0. -/
def astralChar : Char := ⟨0x10000, by decide⟩

/-- A one-character string holding U+10000. -/
def astralStr : String := ⟨[astralChar]⟩

/-- C8 counterexample: `sanitize_xml` is not the removal the spec lists.
U+10000 is a legal XML 1.0 character outside every listed control range
(the spec would keep it), yet `sanitize_xml` deletes it. -/
theorem sanitize_xml_removes_legal_astral :
    sanitize_xml astralStr ≠ spec_sanitize astralStr ∧
    sanitize_xml astralStr = "" ∧ spec_sanitize astralStr = astralStr := by
  refine ⟨?_, ?_, ?_⟩ <;> decide

/-- C8 (amended): `sanitize_xml` is idempotent, hence parsing its output
is insensitive to re-sanitization; and it keeps exactly the characters of
the BMP classes its two regexes describe — which excludes the
supplementary-plane characters U+10000–U+10FFFF that XML 1.0 allows. -/
theorem sanitize_xml_spec (s : String) (parse : String → List String) :
    sanitize_xml (sanitize_xml s) = sanitize_xml s ∧
    parse (sanitize_xml s) = parse (sanitize_xml (sanitize_xml s)) ∧
    (sanitize_xml s).data = s.data.filter (fun c => inXmlClass c && !inControlClass c) := by
  have hdata : (sanitize_xml s).data =
      s.data.filter (fun c => inXmlClass c && !inControlClass c) := by
    rw [sanitize_xml_data, List.filter_filter]
  have hall : ∀ c ∈ (sanitize_xml s).data,
      (!inControlClass c) = true ∧ inXmlClass c = true := by
    intro c hc
    rw [hdata] at hc
    have := (List.mem_filter.mp hc).2
    rw [Bool.and_eq_true] at this
    exact ⟨this.2, this.1⟩
  have h1 : (sanitize_xml s).data.filter (fun c => !inControlClass c) =
      (sanitize_xml s).data :=
    List.filter_eq_self.mpr (fun c hc => (hall c hc).1)
  have h2 : (sanitize_xml s).data.filter (fun c => inXmlClass c) =
      (sanitize_xml s).data :=
    List.filter_eq_self.mpr (fun c hc => (hall c hc).2)
  have hidem : sanitize_xml (sanitize_xml s) = sanitize_xml s := by
    apply String.ext
    rw [sanitize_xml_data, h1, h2]
  exact ⟨hidem, by rw [hidem], hdata⟩

/-- Witness for C8 (amended): the sanitizer on the S2 fixture
`"<E>a\x00b\x1Fc</E>"`, and an arbitrary concrete parse function. -/
theorem sanitize_xml_spec_witness :
    sanitize_xml (sanitize_xml "<E>a\x00b\x1Fc</E>") = sanitize_xml "<E>a\x00b\x1Fc</E>" ∧
    sanitize_xml "<E>a\x00b\x1Fc</E>" = "<E>abc</E>" := by
  refine ⟨(sanitize_xml_spec "<E>a\x00b\x1Fc</E>" (fun _ => [])).1, by decide⟩

/-! ## Time-range parser (`analyzer.LogAnalyzer._parse_time_range`)

```
time_range = time_range.lower().strip()
if   time_range.endswith('h'): return int(time_range[:-1])
elif time_range.endswith('d'): return int(time_range[:-1]) * 24
elif time_range.endswith('w'): return int(time_range[:-1]) * 24 * 7
else:                          return int(time_range)
```
`int(...)` raising `ValueError` is modelled as `none`. -/

/-- Python `str.lower()`: lowercase each character (inputs here are ASCII
range strings, for which `Char.toLower` matches Python). -/
def pyLower (s : String) : String := ⟨s.data.map Char.toLower⟩

/-- Python `str.strip()`: drop whitespace from both ends. -/
def pyStrip (s : String) : String :=
  ⟨((s.data.dropWhile Char.isWhitespace).reverse.dropWhile Char.isWhitespace).reverse⟩

/-- Python `str.endswith(suffix)`. -/
def pyEndsWith (s suffix : String) : Bool := suffix.data.isSuffixOf s.data

/-- Python `s[:-1]`: all but the last character. -/
def pyDropLast (s : String) : String := ⟨s.data.dropLast⟩

/-- Python `int(s)` on an already-stripped ASCII numeral: an optional sign
followed by a non-empty run of decimal digits; anything else raises
`ValueError` (`none`).  (Python also tolerates Unicode digits and interior
underscores, which no caller here produces.) -/
def pyInt (s : String) : Option Int :=
  match s.data with
  | [] => none
  | '-' :: ds => (pyIntDigits ds).map (fun n => -(n : Int))
  | '+' :: ds => (pyIntDigits ds).map (fun n => (n : Int))
  | ds => (pyIntDigits ds).map (fun n => (n : Int))
where
  pyIntDigits (ds : List Char) : Option Nat :=
    if ds = [] then none
    else if ds.all Char.isDigit then
      some (ds.foldl (fun acc c => acc * 10 + (c.toNat - 48)) 0)
    else none

/-- The suffix dispatch of `_parse_time_range`, applied to the already
lowercased and stripped string. -/
def timeRangeCore (t : String) : Option Int :=
  if pyEndsWith t "h" then pyInt (pyDropLast t)
  else if pyEndsWith t "d" then (pyInt (pyDropLast t)).map (· * 24)
  else if pyEndsWith t "w" then (pyInt (pyDropLast t)).map (· * 24 * 7)
  else pyInt t

/-- `LogAnalyzer._parse_time_range`. -/
def parse_time_range (s : String) : Option Int :=
  timeRangeCore (pyStrip (pyLower s))

/-- The ten decimal digit characters. -/
def digitChars : List Char := ['0', '1', '2', '3', '4', '5', '6', '7', '8', '9']

theorem digitChar_facts (c : Char) (h : c ∈ digitChars) :
    Char.toLower c = c ∧ c.isWhitespace = false ∧ c ≠ 'h' ∧ c ≠ 'd' ∧ c ≠ 'w' := by
  fin_cases h <;> exact ⟨rfl, rfl, by decide, by decide, by decide⟩

theorem pyLower_fixed (l : List Char) (h : ∀ c ∈ l, Char.toLower c = c) :
    pyLower ⟨l⟩ = ⟨l⟩ := by
  unfold pyLower
  rw [show (String.mk l).data = l from rfl, List.map_congr_left h]
  simp

theorem dropWhile_eq_self_of_all (p : Char → Bool) (l : List Char)
    (h : ∀ c ∈ l, p c = false) : l.dropWhile p = l := by
  cases l with
  | nil => rfl
  | cons a t =>
    rw [List.dropWhile_cons_of_neg]
    simp [h a (List.mem_cons_self a t)]

theorem pyStrip_fixed (l : List Char) (h : ∀ c ∈ l, c.isWhitespace = false) :
    pyStrip ⟨l⟩ = ⟨l⟩ := by
  unfold pyStrip
  rw [show (String.mk l).data = l from rfl]
  rw [dropWhile_eq_self_of_all _ l h,
      dropWhile_eq_self_of_all _ l.reverse (fun c hc => h c (List.mem_reverse.mp hc)),
      List.reverse_reverse]

theorem pyEndsWith_append_singleton (l : List Char) (c : Char) :
    pyEndsWith ⟨l ++ [c]⟩ ⟨[c]⟩ = true := by
  unfold pyEndsWith
  rw [List.isSuffixOf_iff_suffix]
  exact ⟨l, rfl⟩

theorem pyEndsWith_false_of_not_mem (l : List Char) (c : Char) (h : c ∉ l) :
    pyEndsWith ⟨l⟩ ⟨[c]⟩ = false := by
  unfold pyEndsWith
  rw [show (String.mk l).data = l from rfl, show (String.mk [c]).data = [c] from rfl]
  by_contra hcon
  rw [Bool.not_eq_false, List.isSuffixOf_iff_suffix] at hcon
  exact h (hcon.sublist.subset (List.mem_singleton_self c))

/-- The normalization `.lower().strip()` fixes a digit string with one of
the unit letters appended, and fixes a bare digit string. -/
theorem normalize_digit_suffix (s : String) (u : Char)
    (hd : ∀ c ∈ s.data, c ∈ digitChars) (hu : Char.toLower u = u)
    (huw : u.isWhitespace = false) :
    pyStrip (pyLower (s ++ ⟨[u]⟩)) = ⟨s.data ++ [u]⟩ := by
  have hall : ∀ c ∈ s.data ++ [u], Char.toLower c = c ∧ c.isWhitespace = false := by
    intro c hc
    rcases List.mem_append.mp hc with hc | hc
    · have := digitChar_facts c (hd c hc)
      exact ⟨this.1, this.2.1⟩
    · rw [List.mem_singleton.mp hc]; exact ⟨hu, huw⟩
  have hdata : (s ++ (⟨[u]⟩ : String)).data = s.data ++ [u] := by
    rw [String.data_append]
  rw [show pyLower (s ++ ⟨[u]⟩) = pyLower ⟨s.data ++ [u]⟩ by
        unfold pyLower; rw [hdata]]
  rw [pyLower_fixed _ (fun c hc => (hall c hc).1),
      pyStrip_fixed _ (fun c hc => (hall c hc).2)]

/-- C9: the time-range parser maps a digit numeral `n` followed by `h` to
`n` hours, by `d` to `24·n`, by `w` to `168·n`, and a bare numeral to `n`;
in particular `"24h" ↦ 24`, `"2d" ↦ 48`, `"1w" ↦ 168`, `"3" ↦ 3`. -/
theorem parse_time_range_spec :
    (∀ (s : String) (n : Int), (∀ c ∈ s.data, c ∈ digitChars) → pyInt s = some n →
      parse_time_range (s ++ "h") = some n ∧
      parse_time_range (s ++ "d") = some (24 * n) ∧
      parse_time_range (s ++ "w") = some (168 * n) ∧
      parse_time_range s = some n) ∧
    parse_time_range "24h" = some 24 ∧ parse_time_range "2d" = some 48 ∧
    parse_time_range "1w" = some 168 ∧ parse_time_range "3" = some 3 := by
  refine ⟨?_, by decide, by decide, by decide, by decide⟩
  intro s n hd hn
  have hmk : (⟨s.data⟩ : String) = s := rfl
  have hdl : ∀ u : Char, pyDropLast ⟨s.data ++ [u]⟩ = s := by
    intro u
    unfold pyDropLast
    rw [show (String.mk (s.data ++ [u])).data = s.data ++ [u] from rfl,
        List.dropLast_concat, hmk]
  have hend : ∀ u : Char, pyEndsWith ⟨s.data ++ [u]⟩ ⟨[u]⟩ = true :=
    fun u => pyEndsWith_append_singleton s.data u
  have hne : ∀ u v : Char, v ≠ u → v ∉ digitChars →
      pyEndsWith ⟨s.data ++ [u]⟩ ⟨[v]⟩ = false := by
    intro u v hvu hvd
    apply pyEndsWith_false_of_not_mem
    intro hmem
    rcases List.mem_append.mp hmem with hmem | hmem
    · exact hvd (hd v hmem)
    · exact hvu (List.mem_singleton.mp hmem)
  have hbare : ∀ v : Char, v ∉ digitChars → pyEndsWith s ⟨[v]⟩ = false := by
    intro v hvd
    rw [← hmk]
    exact pyEndsWith_false_of_not_mem s.data v (fun hmem => hvd (hd v hmem))
  have snonempty : s.data ≠ [] := by
    intro habs
    rw [pyInt, habs] at hn
    exact Option.noConfusion hn
  have hbareStrip : pyStrip (pyLower s) = s := by
    conv_lhs => rw [← hmk]
    have hall : ∀ c ∈ s.data, Char.toLower c = c ∧ c.isWhitespace = false :=
      fun c hc => ⟨(digitChar_facts c (hd c hc)).1, (digitChar_facts c (hd c hc)).2.1⟩
    rw [show pyLower ⟨s.data⟩ = ⟨s.data⟩ from pyLower_fixed s.data (fun c hc => (hall c hc).1),
        pyStrip_fixed s.data (fun c hc => (hall c hc).2), hmk]
  have hlit_h : ("h" : String) = ⟨['h']⟩ := rfl
  have hlit_d : ("d" : String) = ⟨['d']⟩ := rfl
  have hlit_w : ("w" : String) = ⟨['w']⟩ := rfl
  refine ⟨?_, ?_, ?_, ?_⟩
  · show parse_time_range (s ++ "h") = some n
    unfold parse_time_range
    rw [hlit_h, normalize_digit_suffix s 'h' hd rfl rfl]
    unfold timeRangeCore
    rw [hlit_h]
    simp only [hend 'h', if_true, hdl 'h', hn]
  · show parse_time_range (s ++ "d") = some (24 * n)
    unfold parse_time_range
    rw [hlit_d, normalize_digit_suffix s 'd' hd rfl rfl]
    unfold timeRangeCore
    rw [hlit_h, hlit_d]
    simp only [hne 'd' 'h' (by decide) (by decide), hend 'd', Bool.false_eq_true,
      if_false, if_true, hdl 'd', hn]
    show some (n * 24) = some (24 * n)
    rw [Int.mul_comm]
  · show parse_time_range (s ++ "w") = some (168 * n)
    unfold parse_time_range
    rw [hlit_w, normalize_digit_suffix s 'w' hd rfl rfl]
    unfold timeRangeCore
    rw [hlit_h, hlit_d, hlit_w]
    simp only [hne 'w' 'h' (by decide) (by decide), hne 'w' 'd' (by decide) (by decide),
      hend 'w', Bool.false_eq_true, if_false, if_true, hdl 'w', hn]
    show some (n * 24 * 7) = some (168 * n)
    exact congrArg some (by ring)
  · show parse_time_range s = some n
    unfold parse_time_range
    rw [hbareStrip]
    unfold timeRangeCore
    rw [hlit_h, hlit_d, hlit_w]
    simp only [hbare 'h' (by decide), hbare 'd' (by decide), hbare 'w' (by decide),
      Bool.false_eq_true, if_false, hn]

/-- Witness for C9: the general digit-string clause applied to `"24"`. -/
theorem parse_time_range_spec_witness :
    parse_time_range ("24" ++ "h") = some 24 ∧ parse_time_range ("24" ++ "d") = some (24 * 24) ∧
    parse_time_range ("24" ++ "w") = some (168 * 24) ∧ parse_time_range "24" = some 24 :=
  parse_time_range_spec.1 "24" 24 (by decide) (by decide)

/-! ## Rule engine (`analyzer.Watcher`)

`_evaluate_rule` builds
`WHERE timestamp >= '{last_check}' [AND event_id IN (…)] [AND level = '…']`
— a closed lower bound and, notably, *no upper bound* — and
`_check_alerts` runs every rule against the current `last_check`, then sets
`self.last_check = now` once, after the loop.  Rule evaluation is modelled
down to its row-selection predicate; the `GROUP BY`/`HAVING` aggregation
and the action dispatch downstream of the selection do not affect which
rows a tick considers. -/

/-- An alert rule (`alerts.rules[]`): optional event-id set, optional
severity filter, firing threshold. -/
structure Rule where
  event_ids : List Nat
  severity : Option String
  threshold : Nat
  deriving DecidableEq, Repr

/-- The row-selection predicate of the WHERE clause `_evaluate_rule`
builds: `timestamp >= last_check`, plus `event_id IN (…)` if `event_ids`
is nonempty, plus `level = severity` if set. -/
def rowSelected (lastCheck : Int) (r : Rule) (e : LogRec) : Bool :=
  (lastCheck ≤ e.ts) &&
  (r.event_ids.isEmpty || r.event_ids.contains e.event_id) &&
  (match r.severity with
   | none => true
   | some sev => e.level == sev)

/-- The rows a single `_evaluate_rule` call considers. -/
def evaluate_rule (lastCheck : Int) (r : Rule) (logs : List LogRec) : List LogRec :=
  logs.filter (rowSelected lastCheck r)

/-- The WHERE clause the claim describes: the half-open window
`timestamp > last_check AND timestamp ≤ now`, with the same optional
filters.  Modelled from the spec's words, for comparison with
`rowSelected`. -/
def specRowSelected (lastCheck now : Int) (r : Rule) (e : LogRec) : Bool :=
  (lastCheck < e.ts && e.ts ≤ now) &&
  (r.event_ids.isEmpty || r.event_ids.contains e.event_id) &&
  (match r.severity with
   | none => true
   | some sev => e.level == sev)

/-- Watcher state: the watermark `last_check`. -/
structure WatcherState where
  last_check : Int
  deriving DecidableEq, Repr

/-- `Watcher._check_alerts`: evaluate every rule against the current
`last_check`, then set `last_check = now`. -/
def check_alerts (st : WatcherState) (now : Int) (rules : List Rule) (logs : List LogRec) :
    WatcherState × List (List LogRec) :=
  (⟨now⟩, rules.map (fun r => evaluate_rule st.last_check r logs))

/-- A sequence of watcher ticks over one rule at wall-clock instants
`times`, against a fixed set of ingested rows; element `i` is the row set
tick `i+1` considered. -/
def runTicks (st : WatcherState) (r : Rule) (logs : List LogRec) : List Int → List (List LogRec)
  | [] => []
  | now :: rest =>
      (check_alerts st now [r] logs).2.headD [] ::
        runTicks (check_alerts st now [r] logs).1 r logs rest

/-- The rule with no filters, threshold 1. -/
def trivialRule : Rule := ⟨[], none, 1⟩

/-- The boundary row for the C2 counterexample: timestamp exactly at a
tick instant. -/
def boundaryRow : LogRec := ⟨10, "10.0.0.1", "Security", 4625, "Error", "s", "m"⟩

/-- C2 counterexample: the code's WHERE clause is `timestamp >=
last_check` with no upper bound, not the claimed half-open window, and a
row whose timestamp equals a tick boundary is considered by two ticks, not
exactly one.  Ticks at t₁ = 10, t₂ = 20, t₃ = 30 from `last_check` 0; the
row has timestamp 10 ∈ (t₀, t₁]. -/
theorem watcher_window_counterexample :
    rowSelected 10 trivialRule boundaryRow = true ∧
    specRowSelected 10 20 trivialRule boundaryRow = false ∧
    (runTicks ⟨0⟩ trivialRule [boundaryRow] [10, 20, 30]).countP
        (fun l => l.contains boundaryRow) = 2 ∧
    ¬((runTicks ⟨0⟩ trivialRule [boundaryRow] [10, 20, 30]).countP
        (fun l => l.contains boundaryRow) = 1) := by
  refine ⟨?_, ?_, ?_, ?_⟩ <;> decide

theorem runTicks_ne_nil (st : WatcherState) (r : Rule) (logs : List LogRec)
    (t : Int) (rest : List Int) : runTicks st r logs (t :: rest) ≠ [] := by
  simp [runTicks]

theorem getLast?_cons_of_ne {α : Type} (a : α) (l : List α) (h : l ≠ []) :
    (a :: l).getLast? = l.getLast? := by
  cases l with
  | nil => exact absurd rfl h
  | cons b t => simp [List.getLast?_cons_cons]

theorem runTicks_getLast_pair (r : Rule) (logs : List LogRec) (tI tN : Int) :
    ∀ (pre : List Int) (lc0 : Int),
      (runTicks ⟨lc0⟩ r logs (pre ++ [tI, tN])).getLast? =
        some (evaluate_rule tI r logs) := by
  intro pre
  induction pre with
  | nil =>
    intro lc0
    simp [runTicks, check_alerts, List.getLast?_cons_cons]
  | cons x xs ih =>
    intro lc0
    show (runTicks ⟨lc0⟩ r logs (x :: (xs ++ [tI, tN]))).getLast? = _
    rw [show runTicks ⟨lc0⟩ r logs (x :: (xs ++ [tI, tN])) =
          (check_alerts ⟨lc0⟩ x [r] logs).2.headD [] ::
            runTicks (check_alerts ⟨lc0⟩ x [r] logs).1 r logs (xs ++ [tI, tN]) from rfl]
    have hne : runTicks (check_alerts ⟨lc0⟩ x [r] logs).1 r logs (xs ++ [tI, tN]) ≠ [] := by
      cases xs with
      | nil => exact runTicks_ne_nil _ r logs tI [tN]
      | cons y ys => exact runTicks_ne_nil _ r logs y (ys ++ [tI, tN])
    rw [getLast?_cons_of_ne _ _ hne]
    exact ih x

/-- C2 (amended): each tick evaluates every rule with
`timestamp >= last_check` (closed lower bound, no upper bound), and
`last_check` is set to `now` once, after all rules of the tick; hence an
ingested row whose timestamp lies in `(t_i, t_{i+1}]` is considered by
tick `i+1` — at least once, but (as the counterexample shows) possibly by
other ticks as well. -/
theorem watcher_window_amended :
    (∀ (st : WatcherState) (now : Int) (rules : List Rule) (logs : List LogRec),
      (check_alerts st now rules logs).1.last_check = now ∧
      (check_alerts st now rules logs).2 =
        rules.map (fun r => evaluate_rule st.last_check r logs)) ∧
    (∀ (lc0 : Int) (pre : List Int) (tI tN : Int) (r : Rule) (row : LogRec)
        (logs : List LogRec),
      r.event_ids = [] → r.severity = none → row ∈ logs → tI < row.ts →
      (runTicks ⟨lc0⟩ r logs (pre ++ [tI, tN])).getLast? =
          some (evaluate_rule tI r logs) ∧
        row ∈ evaluate_rule tI r logs) := by
  refine ⟨fun st now rules logs => ⟨rfl, rfl⟩, ?_⟩
  intro lc0 pre tI tN r row logs hids hsev hmem hts
  refine ⟨runTicks_getLast_pair r logs tI tN pre lc0, ?_⟩
  unfold evaluate_rule
  rw [List.mem_filter]
  refine ⟨hmem, ?_⟩
  unfold rowSelected
  rw [hids, hsev]
  simp only [List.isEmpty_nil, Bool.true_or, Bool.and_true]
  simp [le_of_lt hts]

/-- Witness for C2 (amended): one prior tick at 5, boundary pair `(10, 20]`,
a row at timestamp 15. -/
theorem watcher_window_amended_witness :
    (runTicks ⟨0⟩ trivialRule [⟨15, "h", "Security", 1, "Error", "s", "m"⟩]
        ([5] ++ [10, 20])).getLast? =
      some (evaluate_rule 10 trivialRule [⟨15, "h", "Security", 1, "Error", "s", "m"⟩]) ∧
    (⟨15, "h", "Security", 1, "Error", "s", "m"⟩ : LogRec) ∈
      evaluate_rule 10 trivialRule [⟨15, "h", "Security", 1, "Error", "s", "m"⟩] :=
  watcher_window_amended.2 0 [5] 10 20 trivialRule
    ⟨15, "h", "Security", 1, "Error", "s", "m"⟩
    [⟨15, "h", "Security", 1, "Error", "s", "m"⟩]
    rfl rfl (List.mem_singleton_self _) (by decide)

/-! ## Retry combinator and remote execution
(`utils.retry_on_failure`, `collector.RemoteHost.execute_powershell`)

`retry_on_failure(max_attempts=3, delay=5, exceptions=(Exception,))` wraps
a call: attempts 1..max_attempts, re-raising on the final attempt and
sleeping `delay` seconds between attempts; an exception not in
`exceptions` propagates at once (the applied configuration catches every
`Exception`).  `execute_powershell` is decorated with
`@retry_on_failure(max_attempts=3, delay=5)`, but its body wraps all its
work in `try/except Exception` (and the fallback in a bare `except`) and
returns `None` on failure, so no exception ever reaches the wrapper. -/

/-- Outcome of one Python call: a return value, or an exception identified
by kind. -/
inductive PyOutcome (α : Type) where
  | ok  : α → PyOutcome α
  | exc : String → PyOutcome α
  deriving DecidableEq, Repr

/-- The retry loop from attempt number `attempt` with `retriesLeft`
further attempts allowed; yields the outcome, the number of calls made,
and the sleeps performed (in seconds).  On the final attempt a caught
exception is re-raised; an uncaught one propagates identically. -/
def retryGo {α : Type} (delay : Nat) (catches : String → Bool) (f : Nat → PyOutcome α) :
    Nat → Nat → PyOutcome α × Nat × List Nat
  | attempt, 0 =>
      (f attempt, 1, [])
  | attempt, r + 1 =>
      match f attempt with
      | .ok a => (.ok a, 1, [])
      | .exc e =>
        if catches e then
          let rest := retryGo delay catches f (attempt + 1) r
          (rest.1, rest.2.1 + 1, delay :: rest.2.2)
        else (.exc e, 1, [])

/-- `utils.retry_on_failure` applied to a call whose attempt `i` behaves as
`f i` (callable for `max_attempts ≥ 1`, as in both uses in the source). -/
def retry_on_failure {α : Type} (max_attempts delay : Nat) (catches : String → Bool)
    (f : Nat → PyOutcome α) : PyOutcome α × Nat × List Nat :=
  retryGo delay catches f 1 (max_attempts - 1)

/-- Environment of one `execute_powershell` call: whether a session is
available (or `connect()` succeeds), what the protocol-level
open/run/read sequence does, and what the `run_ps` fallback does. -/
structure PsEnv where
  connected : Bool
  protoResult : PyOutcome (String × String × Nat)
  fallbackResult : PyOutcome (String × Nat)

/-- The body of `RemoteHost.execute_powershell`: every failure path is
caught internally and turned into `None`; the body never raises. -/
def execute_powershell_body (env : PsEnv) : Option String :=
  if !env.connected then none
  else
    match env.protoResult with
    | .ok (out, _stderr, status) => if status == 0 then some out else none
    | .exc _ =>
      match env.fallbackResult with
      | .ok (out, status) => if status == 0 then some out else none
      | .exc _ => none

/-- `execute_powershell` as deployed: the body under
`@retry_on_failure(max_attempts=3, delay=5)` with the default
`exceptions=(Exception,)` (which catches every exception kind). -/
def execute_powershell (env : PsEnv) : PyOutcome (Option String) × Nat × List Nat :=
  retry_on_failure 3 5 (fun _ => true) (fun _ => .ok (execute_powershell_body env))

/-- A host whose WinRM transport times out on every protocol operation and
on the fallback. -/
def transportFailEnv : PsEnv := ⟨true, .exc "TransportTimeout", .exc "TransportTimeout"⟩

/-- C4: on a host whose transport times out on every attempt,
`execute_powershell` makes exactly one attempt, performs no 5-second
sleeps, and returns `None` — the internal `try/except` converts the
transport failure into a normal return, so the retry wrapper (which, as
the second conjunct shows, is configured to make 3 attempts with 5-second
delays when a failure does escape) never retries. -/
theorem execute_powershell_no_retry :
    execute_powershell transportFailEnv = (.ok none, 1, []) ∧
    retry_on_failure 3 5 (fun _ => true)
        (fun _ => (.exc "TransportTimeout" : PyOutcome (Option String))) =
      (.exc "TransportTimeout", 3, [5, 5]) :=
  ⟨rfl, rfl⟩



/-! ## Credential lookup (`config_manager.ConfigManager.get_credentials`)

The source consults, in order: the keyring (service `HeadlessSentinel`,
keys `<ip>_username` / `<ip>_password`), per-host environment variables
`SENTINEL_<ip with dots as underscores>_USERNAME` / `_PASSWORD`, a
`credentials` mapping embedded in the first matching `targets[]` config
entry, and `SENTINEL_DEFAULT_USERNAME` / `SENTINEL_DEFAULT_PASSWORD`;
if all fail it raises `ValueError`.  The keyring, environment and default
branches each require both values to be truthy (`if username and
password`); the config branch returns the embedded mapping as soon as the
`credentials` key exists, without checking its contents. -/

/-- A credentials mapping as it may appear in a config entry: either field
may be absent. -/
structure PartialCreds where
  username : Option String
  password : Option String
  deriving DecidableEq, Repr

/-- One `targets[]` entry, reduced to the fields credential lookup reads. -/
structure TargetCfg where
  ip : String
  credentials : Option PartialCreds
  deriving DecidableEq, Repr

/-- The ambient state a lookup consults: keyring entries (keyed under the
fixed service name), environment variables, and the config's target list. -/
structure CredEnv where
  keyring : String → Option String
  envVar : String → Option String
  targets : List TargetCfg

/-- Python truthiness of an optional string: `None` and `""` are falsy. -/
def truthy : Option String → Bool
  | none => false
  | some s => !(s == "")

/-- `<ip with dots as underscores>`, as in
`target.replace('.', '_')`. -/
def ipKey (target : String) : String :=
  ⟨target.data.map (fun c => if c == '.' then '_' else c)⟩

/-- `ConfigManager.get_credentials`. -/
def get_credentials (E : CredEnv) (target : String) : Except String PartialCreds :=
  if truthy (E.keyring (target ++ "_username")) && truthy (E.keyring (target ++ "_password")) then
    .ok ⟨E.keyring (target ++ "_username"), E.keyring (target ++ "_password")⟩
  else if truthy (E.envVar ("SENTINEL_" ++ ipKey target ++ "_USERNAME")) &&
      truthy (E.envVar ("SENTINEL_" ++ ipKey target ++ "_PASSWORD")) then
    .ok ⟨E.envVar ("SENTINEL_" ++ ipKey target ++ "_USERNAME"),
         E.envVar ("SENTINEL_" ++ ipKey target ++ "_PASSWORD")⟩
  else
    match E.targets.find? (fun t => t.ip == target && t.credentials.isSome) with
    | some t => .ok (t.credentials.getD ⟨none, none⟩)
    | none =>
      if truthy (E.envVar "SENTINEL_DEFAULT_USERNAME") &&
          truthy (E.envVar "SENTINEL_DEFAULT_PASSWORD") then
        .ok ⟨E.envVar "SENTINEL_DEFAULT_USERNAME", E.envVar "SENTINEL_DEFAULT_PASSWORD"⟩
      else
        .error ("No credentials found for " ++ target)

/-- The lookup the claim describes: identical chain, except that the
config-embedded source, like the others, is used only when both username
and password are present.  Modelled from the spec's words, for comparison
with `get_credentials`. -/
def spec_get_credentials (E : CredEnv) (target : String) : Except String PartialCreds :=
  if truthy (E.keyring (target ++ "_username")) && truthy (E.keyring (target ++ "_password")) then
    .ok ⟨E.keyring (target ++ "_username"), E.keyring (target ++ "_password")⟩
  else if truthy (E.envVar ("SENTINEL_" ++ ipKey target ++ "_USERNAME")) &&
      truthy (E.envVar ("SENTINEL_" ++ ipKey target ++ "_PASSWORD")) then
    .ok ⟨E.envVar ("SENTINEL_" ++ ipKey target ++ "_USERNAME"),
         E.envVar ("SENTINEL_" ++ ipKey target ++ "_PASSWORD")⟩
  else
    match E.targets.find? (fun t => t.ip == target && t.credentials.isSome &&
        truthy ((t.credentials.getD ⟨none, none⟩).username) &&
        truthy ((t.credentials.getD ⟨none, none⟩).password)) with
    | some t => .ok (t.credentials.getD ⟨none, none⟩)
    | none =>
      if truthy (E.envVar "SENTINEL_DEFAULT_USERNAME") &&
          truthy (E.envVar "SENTINEL_DEFAULT_PASSWORD") then
        .ok ⟨E.envVar "SENTINEL_DEFAULT_USERNAME", E.envVar "SENTINEL_DEFAULT_PASSWORD"⟩
      else
        .error ("No credentials found for " ++ target)

/-- The C7 counterexample environment: empty keyring, no per-host
environment variables, a config entry for `10.0.0.1` whose `credentials`
mapping has a username but no password, and complete default
credentials in the environment. -/
def cexCredEnv : CredEnv :=
  ⟨fun _ => none,
   fun k => if k == "SENTINEL_DEFAULT_USERNAME" then some "defuser"
            else if k == "SENTINEL_DEFAULT_PASSWORD" then some "defpass"
            else none,
   [⟨"10.0.0.1", some ⟨some "cfguser", none⟩⟩]⟩

/-- C7 counterexample: with a partial `credentials` mapping in the config
and complete defaults in the environment, the code returns the partial
config mapping (no password) while the claimed chain would fall through to
the defaults; lookup does not return "the first source where both
username and password are present". -/
theorem get_credentials_counterexample :
    get_credentials cexCredEnv "10.0.0.1" = .ok ⟨some "cfguser", none⟩ ∧
    spec_get_credentials cexCredEnv "10.0.0.1" = .ok ⟨some "defuser", some "defpass"⟩ ∧
    get_credentials cexCredEnv "10.0.0.1" ≠ spec_get_credentials cexCredEnv "10.0.0.1" := by
  refine ⟨rfl, rfl, ?_⟩
  intro h
  rw [show get_credentials cexCredEnv "10.0.0.1" = .ok ⟨some "cfguser", none⟩ from rfl,
      show spec_get_credentials cexCredEnv "10.0.0.1" =
        .ok ⟨some "defuser", some "defpass"⟩ from rfl] at h
  exact absurd (Except.ok.inj h) (by decide)

/-- C7 (amended): credential lookup consults keyring, per-host environment
variables, config-embedded credentials, then default environment
variables, in that order, returning the first hit and raising when all
fail — where the keyring, per-host and default sources require both
username and password to be present (truthy), but the config source is
taken as soon as the first matching target entry has a `credentials` key
at all, complete or not. -/
theorem get_credentials_spec (E : CredEnv) (target : String) :
    (truthy (E.keyring (target ++ "_username")) = true →
     truthy (E.keyring (target ++ "_password")) = true →
      get_credentials E target =
        .ok ⟨E.keyring (target ++ "_username"), E.keyring (target ++ "_password")⟩) ∧
    ((truthy (E.keyring (target ++ "_username")) && truthy (E.keyring (target ++ "_password"))) = false →
     truthy (E.envVar ("SENTINEL_" ++ ipKey target ++ "_USERNAME")) = true →
     truthy (E.envVar ("SENTINEL_" ++ ipKey target ++ "_PASSWORD")) = true →
      get_credentials E target =
        .ok ⟨E.envVar ("SENTINEL_" ++ ipKey target ++ "_USERNAME"),
             E.envVar ("SENTINEL_" ++ ipKey target ++ "_PASSWORD")⟩) ∧
    ((truthy (E.keyring (target ++ "_username")) && truthy (E.keyring (target ++ "_password"))) = false →
     (truthy (E.envVar ("SENTINEL_" ++ ipKey target ++ "_USERNAME")) &&
      truthy (E.envVar ("SENTINEL_" ++ ipKey target ++ "_PASSWORD"))) = false →
     ∀ t, E.targets.find? (fun t => t.ip == target && t.credentials.isSome) = some t →
      get_credentials E target = .ok (t.credentials.getD ⟨none, none⟩)) ∧
    ((truthy (E.keyring (target ++ "_username")) && truthy (E.keyring (target ++ "_password"))) = false →
     (truthy (E.envVar ("SENTINEL_" ++ ipKey target ++ "_USERNAME")) &&
      truthy (E.envVar ("SENTINEL_" ++ ipKey target ++ "_PASSWORD"))) = false →
     E.targets.find? (fun t => t.ip == target && t.credentials.isSome) = none →
     truthy (E.envVar "SENTINEL_DEFAULT_USERNAME") = true →
     truthy (E.envVar "SENTINEL_DEFAULT_PASSWORD") = true →
      get_credentials E target =
        .ok ⟨E.envVar "SENTINEL_DEFAULT_USERNAME", E.envVar "SENTINEL_DEFAULT_PASSWORD"⟩) ∧
    ((truthy (E.keyring (target ++ "_username")) && truthy (E.keyring (target ++ "_password"))) = false →
     (truthy (E.envVar ("SENTINEL_" ++ ipKey target ++ "_USERNAME")) &&
      truthy (E.envVar ("SENTINEL_" ++ ipKey target ++ "_PASSWORD"))) = false →
     E.targets.find? (fun t => t.ip == target && t.credentials.isSome) = none →
     (truthy (E.envVar "SENTINEL_DEFAULT_USERNAME") &&
      truthy (E.envVar "SENTINEL_DEFAULT_PASSWORD")) = false →
      get_credentials E target = .error ("No credentials found for " ++ target)) := by
  refine ⟨?_, ?_, ?_, ?_, ?_⟩
  · intro hu hp
    unfold get_credentials
    rw [hu, hp]
    rfl
  · intro hkr hu hp
    unfold get_credentials
    rw [hkr, hu, hp]
    rfl
  · intro hkr henv t hfind
    unfold get_credentials
    rw [hkr, henv, hfind]
    rfl
  · intro hkr henv hfind hu hp
    unfold get_credentials
    rw [hkr, henv, hfind, hu, hp]
    rfl
  · intro hkr henv hfind hdef
    unfold get_credentials
    rw [hkr, henv, hfind, hdef]
    rfl

/-- Witness for C7 (amended): the config-embedded source of the
counterexample environment. -/
theorem get_credentials_spec_witness :
    get_credentials cexCredEnv "10.0.0.1" = .ok ⟨some "cfguser", none⟩ :=
  (get_credentials_spec cexCredEnv "10.0.0.1").2.2.1 (by decide) (by decide)
    ⟨"10.0.0.1", some ⟨some "cfguser", none⟩⟩ (by decide)

/-! ## Event XML parser (`collector.LogCollector._parse_event_xml`)

The parser splits the PowerShell output on `---EVENT_SEPARATOR---`,
strips and length-checks each fragment, sanitizes it, hands it to
`ET.fromstring` (modelled as a caller-supplied partial parse function,
`none` standing for `ET.ParseError`), then works on the element tree.
The element tree itself is modelled after `xml.etree.ElementTree`:
namespaced tags appear as `{uri}Local`, `find('.//t')` returns the first
matching proper descendant in document order, and — crucially — the
*truth value* of an `Element` is whether it has children (Python < 3.14
behaviour), which is what `if not all([event_id_elem, level_elem,
time_elem])` tests. -/

/-- An `xml.etree.ElementTree.Element`: tag, attributes, text (the text
preceding the first child), children. -/
inductive XmlElem where
  | mk (tag : String) (attrs : List (String × String)) (text : Option String)
      (children : List XmlElem)

def XmlElem.tag : XmlElem → String
  | .mk t _ _ _ => t

def XmlElem.attrs : XmlElem → List (String × String)
  | .mk _ a _ _ => a

def XmlElem.text : XmlElem → Option String
  | .mk _ _ t _ => t

def XmlElem.children : XmlElem → List XmlElem
  | .mk _ _ _ cs => cs

mutual

/-- All proper descendants of an element, in document (preorder)
order — the search space of `find('.//…')`. -/
def descendants : XmlElem → List XmlElem
  | .mk _ _ _ cs => descList cs

/-- Preorder traversal of a child list. -/
def descList : List XmlElem → List XmlElem
  | [] => []
  | c :: rest => c :: (descendants c ++ descList rest)

end

/-- `elem.find('.//tag')`. -/
def findDesc (e : XmlElem) (tag : String) : Option XmlElem :=
  (descendants e).find? (fun d => d.tag == tag)

/-- `elem.findall('.//tag')`. -/
def findAllDesc (e : XmlElem) (tag : String) : List XmlElem :=
  (descendants e).filter (fun d => d.tag == tag)

/-- `elem.get(name)`. -/
def attrOf (e : XmlElem) (name : String) : Option String :=
  (e.attrs.find? (fun p => p.1 == name)).map (·.2)

/-- Python truthiness of an `Optional[Element]`: `None` is falsy, and an
`Element` is truthy iff it has children (`Element.__bool__` is
`len(self) != 0` on every interpreter this package supports). -/
def optElemTruthy : Option XmlElem → Bool
  | none => false
  | some e => !e.children.isEmpty

/-- The event namespace prefix ElementTree attaches to every tag. -/
def evtNs : String := "{http://schemas.microsoft.com/win/2004/08/events/event}"

/-- `LogCollector.SEVERITY_MAP`. -/
def severityMap : List (String × String) :=
  [("1", "Critical"), ("2", "Error"), ("3", "Warning"),
   ("4", "Information"), ("5", "Verbose")]

/-- `SEVERITY_MAP.get(level_elem.text, 'Unknown')`; a `None` text is
simply not a key, so it also yields `'Unknown'`. -/
def severityGet (t : Option String) : String :=
  match t with
  | none => "Unknown"
  | some s => ((severityMap.find? (fun p => p.1 == s)).map (·.2)).getD "Unknown"

/-- A parsed timestamp as `datetime.fromisoformat` produces it:
calendar fields plus an optional UTC offset in minutes (`none` = naive). -/
structure PyDateTime where
  year : Nat
  month : Nat
  day : Nat
  hour : Nat
  minute : Nat
  second : Nat
  microsecond : Nat
  tzOffsetMinutes : Option Int
  deriving DecidableEq, Repr

/-- Read exactly `k` decimal digits, returning their value and the rest. -/
def readNDigits : Nat → List Char → Nat → Option (Nat × List Char)
  | 0, cs, acc => some (acc, cs)
  | _ + 1, [], _ => none
  | k + 1, c :: cs, acc =>
    if c.isDigit then readNDigits k cs (acc * 10 + (c.toNat - 48)) else none

/-- Consume one expected character. -/
def expectChar (c : Char) : List Char → Option (List Char)
  | [] => none
  | x :: xs => if x == c then some xs else none

/-- Gregorian leap year. -/
def isLeap (y : Nat) : Bool :=
  y % 4 == 0 && (y % 100 != 0 || y % 400 == 0)

def daysInMonth (y m : Nat) : Nat :=
  if m == 2 then (if isLeap y then 29 else 28)
  else if m == 4 || m == 6 || m == 9 || m == 11 then 30
  else 31

/-- Fractional seconds: exactly 6 or exactly 3 digits (Python 3.8's
`fromisoformat` accepts nothing else). -/
def readFrac (cs : List Char) : Option (Nat × List Char) :=
  match readNDigits 6 cs 0 with
  | some (f, r) => some (f, r)
  | none =>
    match readNDigits 3 cs 0 with
    | some (f, r) => some (f * 1000, r)
    | none => none

/-- `datetime.fromisoformat` (Python 3.8 dialect):
`YYYY-MM-DD[*HH:MM[:SS[.fff[fff]]][±HH:MM]]` with calendar and range
validation; anything else raises `ValueError` (`none`).  (3.8 allows any
separator byte at position 10; the collector only ever produces `T`.) -/
def fromisoformat (s : String) : Option PyDateTime := do
  let (y, r) ← readNDigits 4 s.data 0
  let r ← expectChar '-' r
  let (mo, r) ← readNDigits 2 r 0
  let r ← expectChar '-' r
  let (d, r) ← readNDigits 2 r 0
  if !(1 ≤ mo && mo ≤ 12) then none else
  if !(1 ≤ d && d ≤ daysInMonth y mo) then none else
  match r with
  | [] => some ⟨y, mo, d, 0, 0, 0, 0, none⟩
  | _ :: r => do
    let (h, r) ← readNDigits 2 r 0
    let r ← expectChar ':' r
    let (mi, r) ← readNDigits 2 r 0
    let (sec, usec, r) ←
      match r with
      | ':' :: r2 =>
        match readNDigits 2 r2 0 with
        | none => none
        | some (s2, r3) =>
          match r3 with
          | '.' :: r4 =>
            match readFrac r4 with
            | none => none
            | some (f, r5) => some (s2, f, r5)
          | _ => some (s2, 0, r3)
      | _ => some (0, 0, r)
    if !(h ≤ 23 && mi ≤ 59 && sec ≤ 59) then none else
    match r with
    | [] => some ⟨y, mo, d, h, mi, sec, usec, none⟩
    | sign :: r2 =>
      if !(sign == '+' || sign == '-') then none else do
      let (oh, r3) ← readNDigits 2 r2 0
      let r4 ← expectChar ':' r3
      let (om, r5) ← readNDigits 2 r4 0
      if !r5.isEmpty then none else
      if !(oh ≤ 23 && om ≤ 59) then none else
      some ⟨y, mo, d, h, mi, sec, usec,
            some (if sign == '-' then -(oh * 60 + om : Int) else (oh * 60 + om : Int))⟩

/-- `time_str.replace('Z', '+00:00')`: the pattern is a single character,
so the global replace substitutes every `'Z'`. -/
def replaceZ (s : String) : String :=
  ⟨s.data.flatMap (fun c => if c == 'Z' then ['+', '0', '0', ':', '0', '0'] else [c])⟩

/-- The normalized event record the parser emits
(`collector.LogEntry`; the `user` field is never set by the parser). -/
structure LogEntry where
  timestamp : PyDateTime
  event_id : Int
  level : String
  source : Option String
  message : String
  computer : String
  log_name : String
  raw_xml : String
  deriving DecidableEq, Repr

/-- The joined `EventData/Data` texts (`if data.text:` keeps only truthy,
i.e. nonempty, texts). -/
def dataTexts (root : XmlElem) : List String :=
  match findDesc root (evtNs ++ "EventData") with
  | none => []
  | some ed =>
    (findAllDesc ed (evtNs ++ "Data")).filterMap (fun d =>
      match d.text with
      | none => none
      | some t => if t == "" then none else some t)

def buildMessage (root : XmlElem) : String :=
  if (dataTexts root).isEmpty then "No message"
  else String.intercalate " | " (dataTexts root)

/-- Python slicing `s[:n]`: the first `n` code points. -/
def pyTake (s : String) (n : Nat) : String := ⟨s.data.take n⟩

/-- The per-fragment body of `_parse_event_xml`, applied to an already
sanitized fragment and its parsed tree.  Every raising sub-step
(`.get(...)` on a missing attribute, `fromisoformat`, `int(...)`) skips
the fragment (`except Exception: continue`). -/
def processRoot (sanitized : String) (root : XmlElem) (computer log_name : String) :
    Option LogEntry :=
  match findDesc root (evtNs ++ "System") with
  | none => none
  | some system =>
    if !(optElemTruthy (findDesc system (evtNs ++ "EventID")) &&
         optElemTruthy (findDesc system (evtNs ++ "Level")) &&
         optElemTruthy (findDesc system (evtNs ++ "TimeCreated"))) then none
    else
      match findDesc system (evtNs ++ "EventID"), findDesc system (evtNs ++ "TimeCreated") with
      | some event_id_elem, some time_elem =>
        (match attrOf time_elem "SystemTime" with
         | none => none
         | some st =>
           match fromisoformat (replaceZ st) with
           | none => none
           | some ts =>
             match event_id_elem.text with
             | none => none
             | some eidText =>
               match pyInt eidText with
               | none => none
               | some eid =>
                 some { timestamp := ts
                        event_id := eid
                        level := severityGet ((findDesc system (evtNs ++ "Level")).bind XmlElem.text)
                        source := match findDesc system (evtNs ++ "Provider") with
                                  | some p => attrOf p "Name"
                                  | none => some "Unknown"
                        message := pyTake (buildMessage root) 1000
                        computer := computer
                        log_name := log_name
                        raw_xml := pyTake sanitized 5000 })
      | _, _ => none

/-- Split on each non-overlapping occurrence of `sep`, left to right
(Python `str.split(sep)` for a nonempty separator).  Fuel-driven so that
it is structurally recursive; `fuel = length` always suffices. -/
def splitFuel (sep : List Char) : Nat → List Char → List Char → List (List Char)
  | 0, rest, acc => [acc.reverse ++ rest]
  | fuel + 1, cs, acc =>
    match cs with
    | [] => [acc.reverse]
    | c :: rest =>
      if sep.isPrefixOf (c :: rest) then
        acc.reverse :: splitFuel sep fuel ((c :: rest).drop sep.length) []
      else
        splitFuel sep fuel rest (c :: acc)

/-- Python `xml_output.split(sep)`. -/
def pySplit (s sep : String) : List String :=
  (splitFuel sep.data s.data.length s.data []).map (fun l => ⟨l⟩)

/-- `LogCollector._parse_event_xml`, with `ET.fromstring` supplied as a
partial parse function (`none` = `ET.ParseError`, a per-fragment skip). -/
def parse_event_xml (fromstring : String → Option XmlElem)
    (xml_output : String) (computer log_name : String) : List LogEntry :=
  (pySplit xml_output "---EVENT_SEPARATOR---").filterMap (fun event_str =>
    let ev := pyStrip event_str
    if ev == "" || ev.length < 50 then none
    else
      match fromstring (sanitize_xml ev) with
      | none => none
      | some root => processRoot (sanitize_xml ev) root computer log_name)

/-! ### The S1 fixture -/

/-- The S1 scenario input: a minimal Security 4625 event, one fragment,
no separator. -/
def s1Xml : String :=
  "<Event xmlns='http://schemas.microsoft.com/win/2004/08/events/event'><System><Provider Name='Microsoft-Windows-Security-Auditing'/><EventID>4625</EventID><Level>2</Level><TimeCreated SystemTime='2024-01-15T10:30:00.000Z'/></System><EventData><Data Name='TargetUserName'>DOMAIN\\alice</Data></EventData></Event>"

/-- The element tree `ET.fromstring(s1Xml)` yields: the `xmlns`
declaration becomes the `{uri}` tag prefix, `EventID`/`Level` carry only
text, `Provider`/`TimeCreated` only attributes — all four are leaves. -/
def s1Tree : XmlElem :=
  .mk (evtNs ++ "Event") [] none
    [ .mk (evtNs ++ "System") [] none
        [ .mk (evtNs ++ "Provider") [("Name", "Microsoft-Windows-Security-Auditing")] none []
        , .mk (evtNs ++ "EventID") [] (some "4625") []
        , .mk (evtNs ++ "Level") [] (some "2") []
        , .mk (evtNs ++ "TimeCreated") [("SystemTime", "2024-01-15T10:30:00.000Z")] none []
        ]
    , .mk (evtNs ++ "EventData") [] none
        [ .mk (evtNs ++ "Data") [("Name", "TargetUserName")] (some "DOMAIN\\alice") [] ]
    ]

/-- `ET.fromstring` on the (sanitization-fixed) S1 fragment. -/
def s1Fromstring : String → Option XmlElem :=
  fun s => if s == s1Xml then some s1Tree else none

set_option maxRecDepth 16384 in
/-- C1: the parser returns NO entry for the well-formed S1 fixture, whose
`System` subtree does contain `EventID`, `Level` and `TimeCreated` (with
the expected `SystemTime`).  `all([event_id_elem, level_elem,
time_elem])` tests ElementTree truthiness, which is "has children", so
the childless leaves make the guard skip every real event. -/
theorem parse_event_xml_s1_skips_all :
    parse_event_xml s1Fromstring s1Xml "10.0.0.1" "Security" = [] ∧
    (findDesc s1Tree (evtNs ++ "System")).isSome = true ∧
    ((findDesc s1Tree (evtNs ++ "System")).bind
        (fun sys => findDesc sys (evtNs ++ "EventID"))).isSome = true ∧
    ((findDesc s1Tree (evtNs ++ "System")).bind
        (fun sys => findDesc sys (evtNs ++ "Level"))).isSome = true ∧
    ((findDesc s1Tree (evtNs ++ "System")).bind
        (fun sys => findDesc sys (evtNs ++ "TimeCreated"))).isSome = true ∧
    (((findDesc s1Tree (evtNs ++ "System")).bind
        (fun sys => findDesc sys (evtNs ++ "TimeCreated"))).bind
        (fun te => attrOf te "SystemTime")) = some "2024-01-15T10:30:00.000Z" := by
  refine ⟨?_, ?_, ?_, ?_, ?_, ?_⟩ <;> decide

/-! ### C6: severity mapping -/

/-- The `Level` text a fragment's `System` subtree carries (the value
`SEVERITY_MAP` is keyed on). -/
def levelTextOf (root : XmlElem) : Option String :=
  (findDesc root (evtNs ++ "System")).bind
    (fun sys => (findDesc sys (evtNs ++ "Level")).bind XmlElem.text)

/-- The six severities an emitted entry can carry. -/
def severityEnum : List String :=
  ["Critical", "Error", "Warning", "Information", "Verbose", "Unknown"]

theorem severityGet_mem (t : Option String) : severityGet t ∈ severityEnum := by
  cases t with
  | none => simp [severityGet, severityEnum]
  | some s =>
    cases hf : severityMap.find? (fun p => p.1 == s) with
    | none => simp [severityGet, hf, severityEnum]
    | some pr =>
      have hmem := List.mem_of_find?_eq_some hf
      simp only [severityGet, hf, Option.map_some, Option.getD_some]
      fin_cases hmem <;> simp [severityEnum]

theorem processRoot_level (sanitized : String) (root : XmlElem) (c l : String)
    (e : LogEntry) (h : processRoot sanitized root c l = some e) :
    e.level = severityGet (levelTextOf root) := by
  unfold processRoot at h
  cases hsys : findDesc root (evtNs ++ "System") with
  | none => simp [hsys] at h
  | some system =>
    simp only [hsys] at h
    cases hguard : (optElemTruthy (findDesc system (evtNs ++ "EventID")) &&
         optElemTruthy (findDesc system (evtNs ++ "Level")) &&
         optElemTruthy (findDesc system (evtNs ++ "TimeCreated"))) with
    | false => simp [hguard] at h
    | true =>
      simp only [hguard, Bool.not_true, Bool.false_eq_true, if_false] at h
      cases hEID : findDesc system (evtNs ++ "EventID") with
      | none => simp [hEID] at h
      | some event_id_elem =>
        cases hTC : findDesc system (evtNs ++ "TimeCreated") with
        | none => simp [hEID, hTC] at h
        | some time_elem =>
          simp only [hEID, hTC] at h
          cases hattr : attrOf time_elem "SystemTime" with
          | none => simp [hattr] at h
          | some st =>
            simp only [hattr] at h
            cases hiso : fromisoformat (replaceZ st) with
            | none => simp [hiso] at h
            | some ts =>
              simp only [hiso] at h
              cases htext : event_id_elem.text with
              | none => simp [htext] at h
              | some eidText =>
                simp only [htext] at h
                cases hpy : pyInt eidText with
                | none => simp [hpy] at h
                | some eid =>
                  simp only [hpy] at h
                  have he := Option.some.inj h
                  rw [← he]
                  simp [levelTextOf, hsys]

/-- C6: `Level` maps through `SEVERITY_MAP` — `1↦Critical, 2↦Error,
3↦Warning, 4↦Information, 5↦Verbose`, anything else (missing text
included) `↦Unknown` without the fragment being dropped on that account —
so every emitted entry's `level`, whether seen per fragment or in the
parser's output, lies in the fixed six-value enum. -/
theorem severity_mapping_spec :
    (severityGet (some "1") = "Critical" ∧ severityGet (some "2") = "Error" ∧
     severityGet (some "3") = "Warning" ∧ severityGet (some "4") = "Information" ∧
     severityGet (some "5") = "Verbose" ∧ severityGet none = "Unknown") ∧
    (∀ s : String, severityMap.find? (fun p => p.1 == s) = none →
      severityGet (some s) = "Unknown") ∧
    (∀ (sanitized : String) (root : XmlElem) (c l : String) (e : LogEntry),
      processRoot sanitized root c l = some e →
      e.level = severityGet (levelTextOf root) ∧ e.level ∈ severityEnum) ∧
    (∀ (fromstring : String → Option XmlElem) (input c l : String) (e : LogEntry),
      e ∈ parse_event_xml fromstring input c l → e.level ∈ severityEnum) := by
  refine ⟨⟨by decide, by decide, by decide, by decide, by decide, by decide⟩, ?_, ?_, ?_⟩
  · intro s hf
    simp [severityGet, hf]
  · intro sanitized root c l e h
    have hl := processRoot_level sanitized root c l e h
    exact ⟨hl, hl ▸ severityGet_mem (levelTextOf root)⟩
  · intro fromstring input c l e h
    unfold parse_event_xml at h
    rw [List.mem_filterMap] at h
    obtain ⟨frag, _, hf⟩ := h
    simp only at hf
    split at hf
    · exact Option.noConfusion hf
    · split at hf
      · exact Option.noConfusion hf
      · rename_i root _
        have hl := processRoot_level _ root c l e hf
        exact hl ▸ severityGet_mem _

/-- A filler child element: under the ElementTree truthiness semantics,
only elements with at least one child pass `all([...])`. -/
def padChild : XmlElem := .mk "pad" [] none []

/-- A fragment tree that does emit an entry: `EventID`, `Level` and
`TimeCreated` each carry a child element (their text/attributes are
unchanged), so the truthiness guard passes. -/
def emitTree : XmlElem :=
  .mk (evtNs ++ "Event") [] none
    [ .mk (evtNs ++ "System") [] none
        [ .mk (evtNs ++ "Provider") [("Name", "Microsoft-Windows-Security-Auditing")] none []
        , .mk (evtNs ++ "EventID") [] (some "4625") [padChild]
        , .mk (evtNs ++ "Level") [] (some "2") [padChild]
        , .mk (evtNs ++ "TimeCreated") [("SystemTime", "2024-01-15T10:30:00.000Z")] none [padChild]
        ]
    , .mk (evtNs ++ "EventData") [] none
        [ .mk (evtNs ++ "Data") [("Name", "TargetUserName")] (some "DOMAIN\\alice") [] ]
    ]

/-- A fragment string for `emitTree` (clean ASCII, longer than 50). -/
def emitXml : String :=
  "<Event xmlns='http://schemas.microsoft.com/win/2004/08/events/event'><System><EventID>4625<pad/></EventID><Level>2<pad/></Level><TimeCreated SystemTime='2024-01-15T10:30:00.000Z'><pad/></TimeCreated></System></Event>"

/-- `ET.fromstring` for the emit fixture. -/
def emitFromstring : String → Option XmlElem :=
  fun s => if s == emitXml then some emitTree else none

/-- The entry the emit fixture produces. -/
def emitEntry : LogEntry :=
  { timestamp := ⟨2024, 1, 15, 10, 30, 0, 0, some 0⟩
    event_id := 4625
    level := "Error"
    source := some "Microsoft-Windows-Security-Auditing"
    message := "DOMAIN\\alice"
    computer := "10.0.0.1"
    log_name := "Security"
    raw_xml := emitXml }

set_option maxRecDepth 16384 in
/-- Witness for C6: the unmapped key `"7"`, and the emit fixture through
both the per-fragment body and the full parser. -/
theorem severity_mapping_spec_witness :
    severityGet (some "7") = "Unknown" ∧
    (emitEntry.level = severityGet (levelTextOf emitTree) ∧ emitEntry.level ∈ severityEnum) ∧
    emitEntry.level ∈ severityEnum :=
  ⟨severity_mapping_spec.2.1 "7" (by decide),
   severity_mapping_spec.2.2.1 emitXml emitTree "10.0.0.1" "Security" emitEntry (by decide),
   severity_mapping_spec.2.2.2 emitFromstring emitXml "10.0.0.1" "Security" emitEntry (by decide)⟩

end Sentinel
